import Mathlib

/-!
Verification of the Thalem Space front-end script (`script.js`).

This file gives a shallow embedding, in Lean, of the data model and the
operations of `script.js` — the catalogue fetcher `fetchTools`, the listing
renderer `loadTools`, the detail renderer `loadToolDetail`, and the pure
helpers `formatPrice`, `getPriceLabel`, `getMediaElement`, `getVideoEmbedUrl`
and `renderList` — together with theorems settling the specified properties.

Modelling conventions:
* JavaScript numbers (IEEE doubles) are idealised as exact rationals, with a
  separate `NaN` value; `Number(·)` of a non-numeric value is modelled as `NaN`.
* Nullish fields (`undefined` / `null` / absent) are modelled by `Option`,
  `none` being nullish.
* The DOM elements built by `loadTools` are modelled as a small tree type;
  the markup built by `loadToolDetail` via template strings is modelled as the
  very string the template produces.
* The single network fetch is modelled by its observable outcome (transport
  rejection, HTTP status flag, JSON body parse result).
-/

namespace Thalem

set_option maxRecDepth 100000

/-- A JavaScript number after `Number(·)` coercion: `NaN`, or an (idealised)
exact rational value. `Number` of a non-numeric string is `nan`; `Number` of a
numeric value `q` is `num q`. -/
inductive JSNum where
  | nan
  | num (q : ℚ)
deriving DecidableEq

/-- A JavaScript value that the `for_who` / `not_for` fields may carry and
that `renderList` inspects: absent (`undefined`), an array of strings, or a
string. -/
inductive StrOrList where
  | undef
  | arr (xs : List String)
  | str (s : String)
deriving DecidableEq

/-- A record of the tools catalogue (`data/tools.json`), with every field the
script reads. Canonical/legacy alias key pairs (`price_eur`/`price`,
`video_url`/`videoUrl`, `repo_url`/`repoUrl`, `release_url`/`releaseUrl`) are
kept as separate fields, exactly as the script reads them. `none` models an
absent (nullish) field. -/
structure Tool where
  slug : String
  name : String
  tagline : Option String := none
  description : Option String := none
  price_eur : Option JSNum := none
  price : Option JSNum := none
  image : Option String := none
  features : Option (List String) := none
  for_who : StrOrList := .undef
  forWho : StrOrList := .undef
  not_for : StrOrList := .undef
  notFor : StrOrList := .undef
  video_url : Option String := none
  videoUrl : Option String := none
  repo_url : Option String := none
  repoUrl : Option String := none
  release_url : Option String := none
  releaseUrl : Option String := none
deriving DecidableEq

/-- JS truthiness of an optional string field: `undefined`/`null` and `""`
are falsy, every other string is truthy. -/
def truthyOS : Option String → Bool
  | none => false
  | some s => s ≠ ""

/-- JS `a || b` on two optional string fields: `a` when truthy, else `b`. -/
def jsOrS (a b : Option String) : Option String :=
  if truthyOS a then a else b

/-- JS truthiness of a number: `NaN` and `0` are falsy. -/
def truthyNum : JSNum → Bool
  | .nan => false
  | .num q => q ≠ 0

/-- JS truthiness of a `for_who` / `not_for` value: `undefined` and `""` are
falsy; every array (even empty) is truthy. -/
def truthySL : StrOrList → Bool
  | .undef => false
  | .arr _ => true
  | .str s => s ≠ ""

/-- JS `a || b` on two `for_who` / `not_for` values. -/
def jsOrSL (a b : StrOrList) : StrOrList :=
  if truthySL a then a else b

/-- The decimal digit character for `d < 10`. -/
def digitChar (d : Nat) : Char := Char.ofNat (48 + d)

/-- Decimal digits of `n`, most significant first, with explicit fuel
(`fuel ≥ n` suffices); empty for `n = 0`. -/
def natStrAux : Nat → Nat → List Char
  | 0, _ => []
  | fuel + 1, n => if n = 0 then [] else natStrAux fuel (n / 10) ++ [digitChar (n % 10)]

/-- Decimal rendering of a natural number. -/
def natStr (n : Nat) : String :=
  if n = 0 then "0" else String.mk (natStrAux n n)

/-- Decimal rendering of an integer — JS `String(·)` applied to an integral
number (exponent notation for magnitudes ≥ 10^21 is outside the idealised
model). -/
def intStr (i : ℤ) : String :=
  if i < 0 then "-" ++ natStr i.natAbs else natStr i.natAbs

/-- `x.toFixed(2)` for a nonnegative rational `x`: the integer `n` with
`n/100` closest to `x` (ties to the larger `n`, per ECMA-262), rendered as the
digits of `n / 100`, a point, and the last two digits of `n`. The rounding
`n = ⌊x·100 + 1/2⌋` is computed as `(200·num + den).fdiv (2·den)` to stay in
integer arithmetic. -/
def toFixed2Abs (x : ℚ) : String :=
  let n : ℕ := ((200 * x.num + (x.den : ℤ)).fdiv (2 * (x.den : ℤ))).toNat
  natStr (n / 100) ++ "." ++ String.mk [digitChar (n / 10 % 10), digitChar (n % 10)]

/-- `value.toFixed(2)`: negative values render as `-` followed by the
rendering of the magnitude (ECMA-262 `Number.prototype.toFixed`). -/
def toFixed2 (x : ℚ) : String :=
  if x < 0 then "-" ++ toFixed2Abs (-x) else toFixed2Abs x

/-- `formatPrice(value)` from script.js:
`Number.isInteger(value) ? String(value) : value.toFixed(2)`. -/
def formatPrice (value : ℚ) : String :=
  if value.den = 1 then intStr value.num else toFixed2 value

/-- `Number(tool.price_eur ?? tool.price ?? 0)` — the nullish-coalescing
chain shared by `getPriceLabel` and `loadToolDetail`. -/
def coercePrice (tool : Tool) : JSNum :=
  match tool.price_eur with
  | some v => v
  | none =>
    match tool.price with
    | some v => v
    | none => .num 0

/-- `getPriceLabel(tool)` from script.js: `if (!value) return 'Free'` — the
falsy numbers are `NaN` and `0`. -/
def getPriceLabel (tool : Tool) : String :=
  match coercePrice tool with
  | .nan => "Free"
  | .num q => if q = 0 then "Free" else formatPrice q ++ " EUR"

/-- `s.trim()`: leading and trailing whitespace removed. (JS trims the full
Unicode white-space set; `Char.isWhitespace` covers space, tab, CR, LF, which
suffices for every string this model meets.) -/
def jsTrim (s : String) : String :=
  String.mk (((s.data.dropWhile Char.isWhitespace).reverse.dropWhile Char.isWhitespace).reverse)

/-- `renderList(value, fallback)` from script.js. -/
def renderList (value : StrOrList) (fallback : String) : String :=
  match value with
  | .arr xs =>
    if xs.length ≠ 0 then
      "<ul>" ++ String.join (xs.map fun item => "<li>" ++ item ++ "</li>") ++ "</ul>"
    else "<p>" ++ fallback ++ "</p>"
  | .str s =>
    if jsTrim s ≠ "" then "<p>" ++ s ++ "</p>" else "<p>" ++ fallback ++ "</p>"
  | .undef => "<p>" ++ fallback ++ "</p>"

/-- The characters `encodeURIComponent` leaves unescaped (ECMA-262
`uriUnescaped`): ASCII letters, digits, and `- _ . ! ~ * ' ( )`. -/
def isUnreservedChar (c : Char) : Bool :=
  ('A' ≤ c && c ≤ 'Z') || ('a' ≤ c && c ≤ 'z') || ('0' ≤ c && c ≤ '9') ||
  c = '-' || c = '_' || c = '.' || c = '!' || c = '~' || c = '*' ||
  c = Char.ofNat 39 || c = '(' || c = ')'

/-- Uppercase hexadecimal digit character for `d < 16`. -/
def hexDigitChar (d : Nat) : Char :=
  Char.ofNat (if d < 10 then 48 + d else 55 + d)

/-- The `%XX` escape of one byte. -/
def percentByte (b : Nat) : List Char :=
  ['%', hexDigitChar (b / 16), hexDigitChar (b % 16)]

/-- The UTF-8 bytes of the code point `n` (`n < 0x110000`). -/
def utf8Bytes (n : Nat) : List Nat :=
  if n < 0x80 then [n]
  else if n < 0x800 then [0xC0 + n / 64, 0x80 + n % 64]
  else if n < 0x10000 then [0xE0 + n / 4096, 0x80 + n / 64 % 64, 0x80 + n % 64]
  else [0xF0 + n / 262144, 0x80 + n / 4096 % 64, 0x80 + n / 64 % 64, 0x80 + n % 64]

/-- `encodeURIComponent` on one character: unreserved characters pass through,
every other character becomes the `%XX` escapes of its UTF-8 bytes. -/
def encodeChar (c : Char) : List Char :=
  if isUnreservedChar c then [c] else ((utf8Bytes c.toNat).map percentByte).flatten

/-- `encodeURIComponent` on a character list. -/
def encodeURIComponentL : List Char → List Char
  | [] => []
  | c :: cs => encodeChar c ++ encodeURIComponentL cs

/-- `encodeURIComponent(s)` (ECMA-262). -/
def encodeURIComponent (s : String) : String :=
  String.mk (encodeURIComponentL s.data)

/-- Value of one hexadecimal digit character (both cases accepted, as in
`decodeURIComponent`). -/
def hexVal (c : Char) : Option Nat :=
  if '0' ≤ c && c ≤ '9' then some (c.toNat - 48)
  else if 'A' ≤ c && c ≤ 'F' then some (c.toNat - 55)
  else if 'a' ≤ c && c ≤ 'f' then some (c.toNat - 87)
  else none

/-- A token of a percent-encoded string: a literal character, or one byte
written as a `%XX` escape. -/
inductive Tok where
  | raw (c : Char)
  | byte (b : Nat)
deriving DecidableEq

/-- First pass of `decodeURIComponent`: split the input into literal
characters and `%XX` bytes; a `%` not followed by two hexadecimal digits is a
`URIError`, modelled as `none`. -/
def tokenize : List Char → Option (List Tok)
  | [] => some []
  | c :: rest =>
    if c = '%' then
      match rest with
      | h1 :: h2 :: rest2 =>
        match hexVal h1, hexVal h2 with
        | some a, some b => (tokenize rest2).map (Tok.byte (16 * a + b) :: ·)
        | _, _ => none
      | _ => none
    else (tokenize rest).map (Tok.raw c :: ·)

/-- Decode one UTF-8 sequence from its leading byte `b` and the following
tokens: the continuation bytes are read off `rest`; stray continuation
bytes, truncated sequences, overlong encodings, surrogate code points and
values above `0x10FFFF` are rejected (a `URIError`, modelled as the `none`
that `assembleAux` propagates). -/
def decodeSeq (b : Nat) (rest : List Tok) : Option (Char × List Tok) :=
  if b < 0x80 then some (Char.ofNat b, rest)
  else if b < 0xC2 then none
  else if b < 0xE0 then
    match rest with
    | .byte b2 :: rest2 =>
      if 0x80 ≤ b2 ∧ b2 < 0xC0 then
        some (Char.ofNat ((b - 0xC0) * 64 + (b2 - 0x80)), rest2)
      else none
    | _ => none
  else if b < 0xF0 then
    match rest with
    | .byte b2 :: .byte b3 :: rest2 =>
      if (0x80 ≤ b2 ∧ b2 < 0xC0) ∧ (0x80 ≤ b3 ∧ b3 < 0xC0) then
        let n := (b - 0xE0) * 4096 + (b2 - 0x80) * 64 + (b3 - 0x80)
        if 0x800 ≤ n ∧ ¬(0xD800 ≤ n ∧ n < 0xE000) then some (Char.ofNat n, rest2) else none
      else none
    | _ => none
  else if b < 0xF5 then
    match rest with
    | .byte b2 :: .byte b3 :: .byte b4 :: rest2 =>
      if ((0x80 ≤ b2 ∧ b2 < 0xC0) ∧ (0x80 ≤ b3 ∧ b3 < 0xC0)) ∧ (0x80 ≤ b4 ∧ b4 < 0xC0) then
        let n := (b - 0xF0) * 262144 + (b2 - 0x80) * 4096 + (b3 - 0x80) * 64 + (b4 - 0x80)
        if 0x10000 ≤ n ∧ n < 0x110000 then some (Char.ofNat n, rest2) else none
      else none
    | _ => none
  else none

/-- Second pass of `decodeURIComponent`: assemble the `%XX` bytes into code
points. The fuel argument only bounds the recursion: every step consumes at
least one token, so `toks.length` fuel (as supplied by `assemble`) never
runs out. -/
def assembleAux : Nat → List Tok → Option (List Char)
  | _, [] => some []
  | 0, _ :: _ => none
  | fuel + 1, .raw c :: rest => (assembleAux fuel rest).map (c :: ·)
  | fuel + 1, .byte b :: rest =>
    match decodeSeq b rest with
    | some (c, rest2) => (assembleAux fuel rest2).map (c :: ·)
    | none => none

/-- Assemble a full token list into the decoded character list. -/
def assemble (toks : List Tok) : Option (List Char) :=
  assembleAux toks.length toks

/-- `decodeURIComponent(s)` (ECMA-262); `none` models a thrown `URIError`. -/
def decodeURIComponent (s : String) : Option String :=
  ((tokenize s.data).bind assemble).map String.mk

/-- The token list the percent-decoder recovers from `encodeChar c`. -/
def encTok (c : Char) : List Tok :=
  if isUnreservedChar c then [Tok.raw c] else (utf8Bytes c.toNat).map Tok.byte

/-- The token list recovered from a whole encoded string. -/
def encToks (l : List Char) : List Tok :=
  (l.map encTok).flatten

/-- A JSON body that parsed successfully: an array of tools, or some
non-array value. -/
inductive JsonBody where
  | arr (tools : List Tool)
  | nonArray
deriving DecidableEq

/-- Observable outcome of `fetch('data/tools.json')` and the subsequent body
read: the transport may reject; otherwise the response carries its HTTP-ok
flag and a body whose JSON parse may fail (`none`). -/
inductive FetchOutcome where
  | networkError
  | response (ok : Bool) (body : Option JsonBody)
deriving DecidableEq

/-- The `try` block of `fetchTools`: a rejected fetch, a non-ok status
(`throw new Error(...)`) and a body that fails to parse all raise; a parsed
non-array yields `[]` via `Array.isArray(tools) ? tools : []`. -/
def fetchToolsBody : FetchOutcome → Except String (List Tool)
  | .networkError => .error "fetch rejected"
  | .response ok body =>
    if !ok then .error "Failed to load tools"
    else
      match body with
      | none => .error "JSON parse failure"
      | some (.arr tools) => .ok tools
      | some .nonArray => .ok []

/-- `fetchTools()` from script.js: the `catch` turns every raised error into
`[]` (after `console.error`, an effect outside this model). -/
def fetchTools (r : FetchOutcome) : List Tool :=
  match fetchToolsBody r with
  | .ok tools => tools
  | .error _ => []

/-- The DOM subtree type for the elements `loadTools` builds with
`document.createElement`: tag, `className`, further attributes,
`textContent`, children. -/
inductive Node where
  | elem (tag className : String) (attrs : List (String × String))
      (textContent : String) (children : List Node)

/-- `getMediaElement(tool)` from script.js: `null` (`none`) when `tool.image`
is falsy, else a `div.tool-media` wrapping the screenshot `img`. -/
def getMediaElement (tool : Tool) : Option Node :=
  match tool.image with
  | none => none
  | some img =>
    if img = "" then none
    else
      some (.elem "div" "tool-media" [] ""
        [.elem "img" "tool-media-image"
          [("src", "assets/" ++ img),
           ("alt", if tool.name ≠ "" then tool.name ++ " screenshot" else "tool screenshot"),
           ("loading", "lazy")] "" []])

/-- One listing card, as built by the `tools.forEach` body of `loadTools`. -/
def toolCard (tool : Tool) : Node :=
  .elem "a" "tool-card"
    [("href", "tool.html?slug=" ++ encodeURIComponent tool.slug)] ""
    ((match getMediaElement tool with
      | some media => [media]
      | none => []) ++
     [.elem "div" "tool-card-content" [] ""
       [.elem "h2" "" [] tool.name [],
        .elem "p" "tool-tagline" [] (tool.tagline.getD "") [],
        .elem "p" "tool-price" [("aria-hidden", "true")] (getPriceLabel tool) []]])

/-- The empty-catalogue message paragraph of `loadTools`. -/
def noToolsMsg : Node :=
  .elem "p" "no-tools" [] "No tools available yet. Check back soon!" []

/-- The `href` attribute of an element (empty when absent). -/
def hrefOf : Node → String
  | .elem _ _ attrs _ _ => ((attrs.lookup "href").getD "")

/-- The body of `loadTools` once the container exists, as a function of the
container's current children: `container.innerHTML = ''` discards them, then
either the single empty-state message or one card per tool is appended. -/
def loadToolsInto (_container : List Node) (tools : List Tool) : List Node :=
  let cleared : List Node := []
  if tools.length = 0 then cleared ++ [noToolsMsg]
  else cleared ++ tools.map toolCard

/-- `loadTools()` from script.js: a no-op when `tools-container` is absent. -/
def loadTools : Option (List Node) → List Tool → Option (List Node)
  | none, _ => none
  | some container, tools => some (loadToolsInto container tools)

/-- The character class `[^&?/]` of the video regex. -/
def notDelim (c : Char) : Bool := !(c = '&' || c = '?' || c = '/')

/-- One attempt of `/(?:youtu\.be\/|v=)([^&?/]+)/` anchored at the start of
`s`: first the `youtu.be/` alternative, then `v=`; the capture needs at least
one non-delimiter character. When `youtu.be/` matches but the capture is
empty, the `v=` alternative cannot match at the same position (it would need
the first character to be `v`, not `y`), so answering `none` is faithful to
the regex engine's backtracking. -/
def tryVideoAt (s : List Char) : Option (List Char) :=
  if "youtu.be/".data.isPrefixOf s then
    let cap := (s.drop 9).takeWhile notDelim
    if cap.isEmpty then none else some cap
  else if "v=".data.isPrefixOf s then
    let cap := (s.drop 2).takeWhile notDelim
    if cap.isEmpty then none else some cap
  else none

/-- `url.match(/(?:youtu\.be\/|v=)([^&?/]+)/)`: the first capture of the
leftmost match, scanning start positions left to right. -/
def matchVideo : List Char → Option (List Char)
  | [] => none
  | c :: rest =>
    match tryVideoAt (c :: rest) with
    | some cap => some cap
    | none => matchVideo rest

/-- `a.includes(b)`: does `b` occur as a contiguous run inside `a`? -/
def listContainsSub [BEq α] : List α → List α → Bool
  | [], sub => sub.isEmpty
  | a :: t, sub => sub.isPrefixOf (a :: t) || listContainsSub t sub

/-- `s.includes(sub)` on strings (executable). -/
def containsSubB (s sub : String) : Bool := listContainsSub s.data sub.data

/-- `sub` occurs contiguously inside `s` (propositional form). -/
def ContainsStr (s sub : String) : Prop := ∃ a b, s.data = a ++ sub.data ++ b

/-- `getVideoEmbedUrl(url)` from script.js. -/
def getVideoEmbedUrl (url : String) : String :=
  if containsSubB url "youtube.com/embed/" then url
  else
    match matchVideo url.data with
    | some cap => "https://www.youtube.com/embed/" ++ String.mk cap
    | none => url

/-- `tool.video_url || tool.videoUrl` from `loadToolDetail`. -/
def videoUrlOf (tool : Tool) : Option String := jsOrS tool.video_url tool.videoUrl

/-- The detail video section: an embed `iframe` when the video URL is truthy,
else the placeholder paragraph. -/
def videoSectionOf (tool : Tool) : String :=
  match videoUrlOf tool with
  | some u =>
    if u ≠ "" then
      "<div class=\"video-wrapper\"><iframe src=\"" ++ getVideoEmbedUrl u
        ++ "\" allowfullscreen></iframe></div>"
    else "<p><em>Video coming soon.</em></p>"
  | none => "<p><em>Video coming soon.</em></p>"

/-- `featuresList` from `loadToolDetail`: guarded by
`tool.features && tool.features.length`. -/
def featuresListOf (tool : Tool) : String :=
  match tool.features with
  | some fs =>
    if fs.length ≠ 0 then
      "<ul>" ++ String.join (fs.map fun f => "<li>" ++ f ++ "</li>") ++ "</ul>"
    else "<p>No features listed.</p>"
  | none => "<p>No features listed.</p>"

/-- `priceLine` from `loadToolDetail`: a truthy price renders
`Price: €<formatted>`, a falsy one (`0` or `NaN`) renders `Free`. -/
def priceLineOf (tool : Tool) : String :=
  match coercePrice tool with
  | .nan => "<p class=\"price\">Free</p>"
  | .num q =>
    if q = 0 then "<p class=\"price\">Free</p>"
    else "<p class=\"price\">Price: €" ++ formatPrice q ++ "</p>"

/-- `buyLabel` from `loadToolDetail`: `Buy (€<formatted>)` for a truthy
price, else `Buy`. -/
def buyLabelOf (tool : Tool) : String :=
  match coercePrice tool with
  | .nan => "Buy"
  | .num q => if q = 0 then "Buy" else "Buy (€" ++ formatPrice q ++ ")"

/-- The `Watch the demo` link, present when `watchUrl = videoUrl || ''` is
truthy. -/
def watchLinkOf (tool : Tool) : String :=
  match videoUrlOf tool with
  | some u =>
    if u ≠ "" then "<a href=\"" ++ u ++ "\" target=\"_blank\">Watch the demo</a>" else ""
  | none => ""

/-- The `View releases` link, from `tool.release_url || tool.releaseUrl`. -/
def releaseLinkOf (tool : Tool) : String :=
  match jsOrS tool.release_url tool.releaseUrl with
  | some u =>
    if u ≠ "" then "<a href=\"" ++ u ++ "\" target=\"_blank\">View releases</a>" else ""
  | none => ""

/-- The `View source` link, from `tool.repo_url || tool.repoUrl`. -/
def repoLinkOf (tool : Tool) : String :=
  match jsOrS tool.repo_url tool.repoUrl with
  | some u =>
    if u ≠ "" then "<a href=\"" ++ u ++ "\" target=\"_blank\">View source</a>" else ""
  | none => ""

/-- The `forWhoList` binding of `loadToolDetail`. -/
def forWhoListOf (tool : Tool) : String :=
  renderList (jsOrSL tool.for_who tool.forWho) "No audience listed."

/-- The `notForList` binding of `loadToolDetail`. -/
def notForListOf (tool : Tool) : String :=
  renderList (jsOrSL tool.not_for tool.notFor) "No exclusions listed."

/-- The template-literal text from the start of the detail markup up to (and
including) the whitespace before the price line. -/
def detailHead (tool : Tool) : String :=
  "\n    <h1>" ++ tool.name ++ "</h1>\n    <p class=\"tagline\">"
    ++ tool.tagline.getD "" ++ "</p>\n    <p>" ++ tool.description.getD ""
    ++ "</p>\n    " ++ videoSectionOf tool ++ "\n    <h2>Features</h2>\n    "
    ++ featuresListOf tool ++ "\n    <h2>Who it\x27s for</h2>\n    "
    ++ forWhoListOf tool ++ "\n    <h2>Not for</h2>\n    "
    ++ notForListOf tool ++ "\n    "

/-- The template-literal text between the price line and the buy label. -/
def detailActionsOpen : String :=
  "\n    <div class=\"actions\">\n      <button type=\"button\" class=\"buy-button\" data-buy=\"placeholder\">"

/-- The template-literal text after the buy label: the closing button tag,
the action links, and the (initially `hidden`) buy notice. -/
def detailTail (tool : Tool) : String :=
  "</button>\n      <div class=\"action-links\">\n        " ++ watchLinkOf tool
    ++ "\n        " ++ releaseLinkOf tool ++ "\n        " ++ repoLinkOf tool
    ++ "\n      </div>\n      <p class=\"buy-notice\" hidden>Payments are not enabled yet. This will be available when thalem.space launches.</p>\n    </div>\n  "

/-- The full string `loadToolDetail` assigns to `main.innerHTML` for a found
tool. -/
def detailMarkup (tool : Tool) : String :=
  detailHead tool ++ (priceLineOf tool ++ (detailActionsOpen ++ (buyLabelOf tool ++ detailTail tool)))

/-- Result of `loadToolDetail`: a no-op when `tool-main` is absent, otherwise
the markup assigned to `main.innerHTML`. -/
inductive DetailResult where
  | noop
  | rendered (html : String)
deriving DecidableEq

/-- `loadToolDetail()` from script.js, as a function of the container's
presence, the `slug` query parameter (`none` when absent from the URL) and
the fetched catalogue. `if (!slug)` also fires on an empty `slug` value. -/
def loadToolDetail (containerPresent : Bool) (slugParam : Option String)
    (tools : List Tool) : DetailResult :=
  if !containerPresent then .noop
  else
    match slugParam with
    | none => .rendered "<p>Tool not specified.</p>"
    | some slug =>
      if slug = "" then .rendered "<p>Tool not specified.</p>"
      else
        match tools.find? (fun t => t.slug == slug) with
        | none => .rendered "<p>Tool not found.</p>"
        | some tool => .rendered (detailMarkup tool)

/-- The session-local UI state of a rendered detail page: the markup and the
`hidden` flag of the `.buy-notice` paragraph. -/
structure DetailUIState where
  content : String
  noticeHidden : Bool
deriving DecidableEq

/-- Events a rendered detail page can receive. The script installs exactly
one listener — the buy button's `click` handler; every other page event has
no handler and is modelled by `other`. -/
inductive UIEvent where
  | buyClick
  | other
deriving DecidableEq

/-- The state right after `loadToolDetail` renders tool `t`: the buy notice
carries the `hidden` attribute. -/
def detailInit (tool : Tool) : DetailUIState :=
  { content := detailMarkup tool, noticeHidden := true }

/-- One event step: the click handler runs `buyNotice.hidden = false`; an
event without a listener changes nothing. -/
def detailStep (s : DetailUIState) : UIEvent → DetailUIState
  | .buyClick => { s with noticeHidden := false }
  | .other => s

/-- Deliver a sequence of page events. -/
def detailRun (s : DetailUIState) (evs : List UIEvent) : DetailUIState :=
  evs.foldl detailStep s

/-- The one-entry catalogue of the end-to-end example:
`[{slug:"x", name:"X", price_eur:12}]`. -/
def xTool : Tool := { slug := "x", name := "X", price_eur := some (.num 12) }

theorem ContainsStr_intro (pre post : String) {s sub : String}
    (h : s = pre ++ (sub ++ post)) : ContainsStr s sub :=
  ⟨pre.data, post.data, by subst h; simp [String.data_append]⟩

/-- Claim C2: for every outcome of the single network retrieval — transport
failure, non-ok status, unparsable body, or a parsed non-array — `fetchTools`
returns `[]` (the raised error is caught, never propagated); the parsed array
is returned exactly when the fetch resolves, the status is ok and the body
parses to an array. -/
theorem fetchTools_fail_to_empty :
    fetchTools .networkError = [] ∧
    (∀ body, fetchTools (.response false body) = []) ∧
    fetchTools (.response true none) = [] ∧
    fetchTools (.response true (some .nonArray)) = [] ∧
    (∀ tools, fetchTools (.response true (some (.arr tools))) = tools) :=
  ⟨rfl, fun _ => rfl, rfl, rfl, fun _ => rfl⟩

/-- Claim C8: `loadTools` clears the container first, so its result does not
depend on the container's previous children, and repeating it with the same
catalogue reproduces the same content. -/
theorem loadTools_idempotent :
    (∀ prev prev2 tools, loadToolsInto prev tools = loadToolsInto prev2 tools) ∧
    (∀ prev tools, loadToolsInto (loadToolsInto prev tools) tools = loadToolsInto prev tools) :=
  ⟨fun _ _ _ => rfl, fun _ _ => rfl⟩

/-- Claim C6: `renderList` yields a bulleted list with one item per element
for a non-empty array, a single paragraph for a string with non-whitespace
content, and the fallback paragraph for `undefined`, the empty array, and
empty or whitespace-only strings. -/
theorem renderList_spec :
    (∀ (x : String) (xs : List String) (f : String),
      renderList (.arr (x :: xs)) f =
        "<ul>" ++ String.join ((x :: xs).map fun item => "<li>" ++ item ++ "</li>") ++ "</ul>") ∧
    (∀ f, renderList (.arr ["a", "b"]) f = "<ul><li>a</li><li>b</li></ul>") ∧
    (∀ s f, jsTrim s ≠ "" → renderList (.str s) f = "<p>" ++ s ++ "</p>") ∧
    (∀ f, renderList .undef f = "<p>" ++ f ++ "</p>") ∧
    (∀ f, renderList (.arr []) f = "<p>" ++ f ++ "</p>") ∧
    (∀ s f, jsTrim s = "" → renderList (.str s) f = "<p>" ++ f ++ "</p>") := by
  refine ⟨fun x xs f => by simp [renderList], fun f => rfl, fun s f h => ?_,
    fun f => rfl, fun f => rfl, fun s f h => ?_⟩
  · simp [renderList, h]
  · simp [renderList, h]

/-- Witness for `renderList_spec` at concrete inputs. -/
theorem renderList_spec_witness :
    renderList (.str "hi") "fb" = "<p>hi</p>" ∧ renderList (.str " ") "fb" = "<p>fb</p>" :=
  ⟨renderList_spec.2.2.1 "hi" "fb" (by decide), renderList_spec.2.2.2.2.2 " " "fb" (by decide)⟩

/-- Claim C9: the purchase notice starts hidden, a buy-button click reveals
it, no sequence of page events re-hides it, and the click handler changes
nothing but the notice's visibility. -/
theorem buyNotice_one_way :
    (∀ tool, (detailInit tool).noticeHidden = true) ∧
    (∀ tool, (detailStep (detailInit tool) .buyClick).noticeHidden = false) ∧
    (∀ s evs, s.noticeHidden = false → (detailRun s evs).noticeHidden = false) ∧
    (∀ s e, (detailStep s e).content = s.content) := by
  refine ⟨fun _ => rfl, fun _ => rfl, fun s evs => ?_, fun s e => by cases e <;> rfl⟩
  induction evs generalizing s with
  | nil => exact fun h => h
  | cons e t ih =>
    intro h
    have hstep : (detailStep s e).noticeHidden = false := by cases e <;> simp [detailStep, h]
    exact ih _ hstep

/-- Witness for `buyNotice_one_way` at a concrete state and event list. -/
theorem buyNotice_one_way_witness :
    (detailRun ⟨"", false⟩ [.buyClick, .other]).noticeHidden = false :=
  buyNotice_one_way.2.2.1 ⟨"", false⟩ [.buyClick, .other] rfl

theorem detailMarkup_h1 (tool : Tool) :
    ContainsStr (detailMarkup tool) ("<h1>" ++ tool.name ++ "</h1>") := by
  apply ContainsStr_intro "\n    "
    ("\n    <p class=\"tagline\">" ++ tool.tagline.getD "" ++ "</p>\n    <p>"
      ++ tool.description.getD "" ++ "</p>\n    " ++ videoSectionOf tool
      ++ "\n    <h2>Features</h2>\n    " ++ featuresListOf tool
      ++ "\n    <h2>Who it\x27s for</h2>\n    " ++ forWhoListOf tool
      ++ "\n    <h2>Not for</h2>\n    " ++ notForListOf tool ++ "\n    "
      ++ (priceLineOf tool ++ (detailActionsOpen ++ (buyLabelOf tool ++ detailTail tool))))
  have e1 : ("\n    <h1>" : String) = "\n    " ++ "<h1>" := rfl
  have e2 : ("</h1>\n    <p class=\"tagline\">" : String)
      = "</h1>" ++ "\n    <p class=\"tagline\">" := rfl
  simp only [detailMarkup, detailHead, e1, e2, String.append_assoc]

/-- Claim C7: with the container present, an absent slug parameter renders
the `Tool not specified` message; otherwise the first tool with exactly the
parameter as its slug is selected (case-sensitively); no match renders
`Tool not found`; a match renders a detail view containing the tool's name. -/
theorem loadToolDetail_lookup :
    (∀ tools, loadToolDetail true none tools = .rendered "<p>Tool not specified.</p>") ∧
    (∀ tools slug, slug ≠ "" → (∀ t ∈ tools, t.slug ≠ slug) →
      loadToolDetail true (some slug) tools = .rendered "<p>Tool not found.</p>") ∧
    (∀ tools slug tool, slug ≠ "" →
      tools.find? (fun t => t.slug == slug) = some tool →
      loadToolDetail true (some slug) tools = .rendered (detailMarkup tool) ∧
      ContainsStr (detailMarkup tool) ("<h1>" ++ tool.name ++ "</h1>")) ∧
    loadToolDetail true (some "X") [xTool] = .rendered "<p>Tool not found.</p>" := by
  refine ⟨fun tools => rfl, fun tools slug hs hnone => ?_,
    fun tools slug tool hs hfind => ?_, rfl⟩
  · have hfind : tools.find? (fun t => t.slug == slug) = none := by
      rw [List.find?_eq_none]
      intro t ht
      simp [hnone t ht]
    simp [loadToolDetail, hs, hfind]
  · exact ⟨by simp [loadToolDetail, hs, hfind], detailMarkup_h1 tool⟩

/-- Witness for `loadToolDetail_lookup`: lookup in the one-entry catalogue. -/
theorem loadToolDetail_lookup_witness :
    loadToolDetail true (some "x") [xTool] = .rendered (detailMarkup xTool) ∧
    ContainsStr (detailMarkup xTool) ("<h1>" ++ xTool.name ++ "</h1>") ∧
    loadToolDetail true (some "zzz") [xTool] = .rendered "<p>Tool not found.</p>" :=
  ⟨(loadToolDetail_lookup.2.2.1 [xTool] "x" xTool (by decide) rfl).1,
   (loadToolDetail_lookup.2.2.1 [xTool] "x" xTool (by decide) rfl).2,
   loadToolDetail_lookup.2.1 [xTool] "zzz" (by decide) (by decide)⟩

theorem natStrAux_digits (fuel : Nat) :
    ∀ (n : Nat), ∀ c ∈ natStrAux fuel n, ∃ d, d < 10 ∧ c = digitChar d := by
  induction fuel with
  | zero => intro n c hc; simp [natStrAux] at hc
  | succ fuel ih =>
    intro n c hc
    by_cases hn : n = 0
    · simp [natStrAux, hn] at hc
    · rw [natStrAux] at hc
      simp [hn] at hc
      rcases hc with hc | hc
      · exact ih _ c hc
      · exact ⟨n % 10, Nat.mod_lt _ (by norm_num), hc⟩

theorem digitChar_ne_dot {d : Nat} (h : d < 10) : digitChar d ≠ '.' := by
  interval_cases d <;> decide

theorem digitChar_isDigit {d : Nat} (h : d < 10) : (digitChar d).isDigit = true := by
  interval_cases d <;> decide

theorem natStr_no_dot (n : Nat) : ∀ c ∈ (natStr n).data, c ≠ '.' := by
  intro c hc
  rw [natStr] at hc
  by_cases hn : n = 0
  · rw [if_pos hn] at hc
    have h0 : ("0" : String).data = ['0'] := rfl
    rw [h0] at hc
    simp at hc
    subst hc; decide
  · rw [if_neg hn] at hc
    have hmk : (String.mk (natStrAux n n)).data = natStrAux n n := rfl
    rw [hmk] at hc
    obtain ⟨d, hd, rfl⟩ := natStrAux_digits n n c hc
    exact digitChar_ne_dot hd

theorem intStr_no_dot (i : ℤ) : ∀ c ∈ (intStr i).data, c ≠ '.' := by
  intro c hc
  rw [intStr] at hc
  by_cases hi : i < 0
  · rw [if_pos hi, String.data_append] at hc
    have hm : ("-" : String).data = ['-'] := rfl
    rw [hm] at hc
    rcases List.mem_append.mp hc with hc | hc
    · simp at hc; subst hc; decide
    · exact natStr_no_dot _ c hc
  · rw [if_neg hi] at hc
    exact natStr_no_dot _ c hc

/-- Claim C4: `formatPrice` renders integers with no decimal point and
non-integers with exactly two decimal places; the price label is `Free` for a
zero or absent price and otherwise the formatted price plus the currency
unit; and the canonical `price_eur` key takes precedence over the legacy
`price` alias. -/
theorem formatPrice_shape :
    (∀ q : ℚ, q.den = 1 → formatPrice q = intStr q.num ∧ ∀ c ∈ (formatPrice q).data, c ≠ '.') ∧
    (∀ q : ℚ, q.den ≠ 1 → ∃ ip d1 d2, formatPrice q = ip ++ "." ++ String.mk [d1, d2]
      ∧ d1.isDigit = true ∧ d2.isDigit = true ∧ ∀ c ∈ ip.data, c ≠ '.') ∧
    formatPrice 9 = "9" ∧ formatPrice (9.5 : ℚ) = "9.50" ∧
    (∀ tool v, tool.price_eur = some v → coercePrice tool = v) ∧
    (∀ tool v, tool.price_eur = none → tool.price = some v → coercePrice tool = v) ∧
    (∀ tool, tool.price_eur = none → tool.price = none → getPriceLabel tool = "Free") ∧
    (∀ tool, coercePrice tool = .num 0 → getPriceLabel tool = "Free") ∧
    (∀ tool q, coercePrice tool = .num q → q ≠ 0 →
      getPriceLabel tool = formatPrice q ++ " EUR") := by
  refine ⟨fun q hq => ⟨by simp [formatPrice, hq], ?_⟩, fun q hq => ?_, by decide, ?_,
    fun tool v hv => by simp [coercePrice, hv], fun tool v he hp => by simp [coercePrice, he, hp],
    fun tool he hp => by simp [getPriceLabel, coercePrice, he, hp],
    fun tool h0 => by simp [getPriceLabel, h0], fun tool q hc hq => by simp [getPriceLabel, hc, hq]⟩
  · rw [formatPrice, if_pos hq]
    exact intStr_no_dot q.num
  · rw [formatPrice, if_neg hq, toFixed2]
    by_cases hneg : q < 0
    · rw [if_pos hneg, toFixed2Abs]
      refine ⟨"-" ++ natStr ((((200 * (-q).num + ((-q).den : ℤ)).fdiv (2 * ((-q).den : ℤ))).toNat) / 100),
        digitChar ((((200 * (-q).num + ((-q).den : ℤ)).fdiv (2 * ((-q).den : ℤ))).toNat) / 10 % 10),
        digitChar ((((200 * (-q).num + ((-q).den : ℤ)).fdiv (2 * ((-q).den : ℤ))).toNat) % 10),
        by simp [String.append_assoc], digitChar_isDigit (Nat.mod_lt _ (by norm_num)),
        digitChar_isDigit (Nat.mod_lt _ (by norm_num)), ?_⟩
      intro c hc
      rw [String.data_append] at hc
      have hm : ("-" : String).data = ['-'] := rfl
      rw [hm] at hc
      rcases List.mem_append.mp hc with hc | hc
      · simp at hc; subst hc; decide
      · exact natStr_no_dot _ c hc
    · rw [if_neg hneg, toFixed2Abs]
      exact ⟨natStr ((((200 * q.num + (q.den : ℤ)).fdiv (2 * (q.den : ℤ))).toNat) / 100),
        digitChar ((((200 * q.num + (q.den : ℤ)).fdiv (2 * (q.den : ℤ))).toNat) / 10 % 10),
        digitChar ((((200 * q.num + (q.den : ℤ)).fdiv (2 * (q.den : ℤ))).toNat) % 10),
        rfl, digitChar_isDigit (Nat.mod_lt _ (by norm_num)),
        digitChar_isDigit (Nat.mod_lt _ (by norm_num)), natStr_no_dot _⟩
  · have h95 : (9.5 : ℚ) = Rat.mk' 19 2 := by
      norm_num [Rat.mk'_eq_divInt, Rat.divInt_eq_div]
    rw [h95]; decide

/-- Witness for `formatPrice_shape` at concrete inputs. -/
theorem formatPrice_shape_witness :
    formatPrice (3 : ℚ) = intStr (3 : ℚ).num ∧
    (∃ ip d1 d2, formatPrice (Rat.mk' 19 2) = ip ++ "." ++ String.mk [d1, d2]
      ∧ d1.isDigit = true ∧ d2.isDigit = true ∧ ∀ c ∈ ip.data, c ≠ '.') ∧
    coercePrice xTool = .num 12 ∧
    coercePrice { slug := "p", name := "P", price := some (.num 5) } = .num 5 ∧
    getPriceLabel { slug := "z", name := "Z" } = "Free" ∧
    getPriceLabel { slug := "z", name := "Z", price_eur := some (.num 0) } = "Free" ∧
    getPriceLabel xTool = formatPrice 12 ++ " EUR" :=
  ⟨(formatPrice_shape.1 3 (by decide)).1,
   formatPrice_shape.2.1 (Rat.mk' 19 2) (by decide),
   formatPrice_shape.2.2.2.2.1 xTool (.num 12) rfl,
   formatPrice_shape.2.2.2.2.2.1 { slug := "p", name := "P", price := some (.num 5) } (.num 5) rfl rfl,
   formatPrice_shape.2.2.2.2.2.2.1 { slug := "z", name := "Z" } rfl rfl,
   formatPrice_shape.2.2.2.2.2.2.2.1 { slug := "z", name := "Z", price_eur := some (.num 0) } rfl,
   formatPrice_shape.2.2.2.2.2.2.2.2 xTool 12 rfl (by norm_num)⟩

/-- Claim C10: a price field that does not coerce to a number (`NaN`) takes
the `Free` branch everywhere: listing label `Free`, detail price line `Free`,
plain `Buy` button. -/
theorem nan_price_free (tool : Tool) (h : coercePrice tool = .nan) :
    getPriceLabel tool = "Free" ∧
    priceLineOf tool = "<p class=\"price\">Free</p>" ∧
    buyLabelOf tool = "Buy" ∧
    ContainsStr (detailMarkup tool) "<p class=\"price\">Free</p>" ∧
    ContainsStr (detailMarkup tool) ">Buy</button>" := by
  have hpl : priceLineOf tool = "<p class=\"price\">Free</p>" := by simp [priceLineOf, h]
  have hbl : buyLabelOf tool = "Buy" := by simp [buyLabelOf, h]
  refine ⟨by simp [getPriceLabel, h], hpl, hbl, ?_, ?_⟩
  · apply ContainsStr_intro (detailHead tool)
      (detailActionsOpen ++ (buyLabelOf tool ++ detailTail tool))
    rw [detailMarkup, hpl]
  · apply ContainsStr_intro
      (detailHead tool ++ (priceLineOf tool
        ++ "\n    <div class=\"actions\">\n      <button type=\"button\" class=\"buy-button\" data-buy=\"placeholder\""))
      ("\n      <div class=\"action-links\">\n        " ++ watchLinkOf tool
        ++ "\n        " ++ releaseLinkOf tool ++ "\n        " ++ repoLinkOf tool
        ++ "\n      </div>\n      <p class=\"buy-notice\" hidden>Payments are not enabled yet. This will be available when thalem.space launches.</p>\n    </div>\n  ")
    have e1 : detailActionsOpen
        = "\n    <div class=\"actions\">\n      <button type=\"button\" class=\"buy-button\" data-buy=\"placeholder\"" ++ ">" := rfl
    have e2 : (">Buy</button>" : String) = ">" ++ "Buy" ++ "</button>" := rfl
    have e3 : ("</button>\n      <div class=\"action-links\">\n        " : String)
        = "</button>" ++ "\n      <div class=\"action-links\">\n        " := rfl
    simp only [detailMarkup, detailTail, hbl, e1, e2, e3, String.append_assoc]

/-- Witness for `nan_price_free` at a concrete non-numeric price. -/
theorem nan_price_free_witness :
    getPriceLabel { slug := "n", name := "N", price_eur := some .nan } = "Free" ∧
    priceLineOf { slug := "n", name := "N", price_eur := some .nan }
      = "<p class=\"price\">Free</p>" ∧
    buyLabelOf { slug := "n", name := "N", price_eur := some .nan } = "Buy" :=
  ⟨(nan_price_free { slug := "n", name := "N", price_eur := some .nan } rfl).1,
   (nan_price_free { slug := "n", name := "N", price_eur := some .nan } rfl).2.1,
   (nan_price_free { slug := "n", name := "N", price_eur := some .nan } rfl).2.2.1⟩

theorem isPrefixOf_append_self (l m : List Char) : l.isPrefixOf (l ++ m) = true := by
  induction l with
  | nil => simp [List.isPrefixOf]
  | cons a t ih => simp [List.isPrefixOf, ih]

theorem listContainsSub_exists {l sub : List Char} (h : listContainsSub l sub = true) :
    ∃ a b, l = a ++ sub ++ b := by
  induction l with
  | nil =>
    rw [listContainsSub, List.isEmpty_iff] at h
    exact ⟨[], [], by simp [h]⟩
  | cons a t ih =>
    rw [listContainsSub, Bool.or_eq_true] at h
    rcases h with hp | hc
    · obtain ⟨rest, hrest⟩ := List.isPrefixOf_iff_prefix.mp hp
      exact ⟨[], rest, by simp [← hrest]⟩
    · obtain ⟨a0, b0, heq⟩ := ih hc
      exact ⟨a :: a0, b0, by simp [heq]⟩

theorem matchVideo_cons_none {c : Char} {rest : List Char}
    (h : tryVideoAt (c :: rest) = none) : matchVideo (c :: rest) = matchVideo rest := by
  simp [matchVideo, h]

theorem matchVideo_cons_some {c : Char} {rest cap : List Char}
    (h : tryVideoAt (c :: rest) = some cap) : matchVideo (c :: rest) = some cap := by
  simp [matchVideo, h]

theorem tryVideoAt_not_yv {c : Char} {rest : List Char} (hy : c ≠ 'y') (hv : c ≠ 'v') :
    tryVideoAt (c :: rest) = none := by
  have h1 : "youtu.be/".data = 'y' :: "outu.be/".data := rfl
  have h2 : "v=".data = 'v' :: "=".data := rfl
  simp [tryVideoAt, h1, h2, List.isPrefixOf, Ne.symm hy, Ne.symm hv]

theorem matchVideo_shortlink (m : List Char) (hne : m ≠ [])
    (hall : ∀ c ∈ m, notDelim c = true) :
    matchVideo ("https://youtu.be/".data ++ m) = some m := by
  have hsplit : "https://youtu.be/".data ++ m
      = 'h' :: ('t' :: ('t' :: ('p' :: ('s' :: (':' :: ('/' :: ('/' :: ("youtu.be/".data ++ m)))))))) := rfl
  rw [hsplit]
  rw [matchVideo_cons_none (tryVideoAt_not_yv (by decide) (by decide))]
  rw [matchVideo_cons_none (tryVideoAt_not_yv (by decide) (by decide))]
  rw [matchVideo_cons_none (tryVideoAt_not_yv (by decide) (by decide))]
  rw [matchVideo_cons_none (tryVideoAt_not_yv (by decide) (by decide))]
  rw [matchVideo_cons_none (tryVideoAt_not_yv (by decide) (by decide))]
  rw [matchVideo_cons_none (tryVideoAt_not_yv (by decide) (by decide))]
  rw [matchVideo_cons_none (tryVideoAt_not_yv (by decide) (by decide))]
  rw [matchVideo_cons_none (tryVideoAt_not_yv (by decide) (by decide))]
  have hcons : "youtu.be/".data ++ m = 'y' :: ("outu.be/".data ++ m) := rfl
  rw [hcons]
  apply matchVideo_cons_some
  rw [← hcons]
  have hpre : ("youtu.be/".data).isPrefixOf ("youtu.be/".data ++ m) = true :=
    isPrefixOf_append_self _ _
  have hdrop : ("youtu.be/".data ++ m).drop 9 = m := by
    have hl : ("youtu.be/".data).length = 9 := rfl
    rw [← hl, List.drop_left]
  have htw : (("youtu.be/".data ++ m).drop 9).takeWhile notDelim = m := by
    rw [hdrop]
    exact List.takeWhile_eq_self_iff.mpr hall
  have hie : m.isEmpty = false := by
    cases m with
    | nil => exact absurd rfl hne
    | cons x xs => rfl
  unfold tryVideoAt
  rw [if_pos hpre]
  show (if ((("youtu.be/".data ++ m).drop 9).takeWhile notDelim).isEmpty then none
    else some ((("youtu.be/".data ++ m).drop 9).takeWhile notDelim)) = some m
  rw [htw, hie]
  rfl

theorem shortlink_no_embed (id : String) (hall : ∀ c ∈ id.data, notDelim c = true) :
    containsSubB ("https://youtu.be/" ++ id) "youtube.com/embed/" = false := by
  by_contra hcon
  rw [Bool.not_eq_false, containsSubB, String.data_append] at hcon
  obtain ⟨a, b, heq⟩ := listContainsSub_exists hcon
  have hsub : ("youtube.com/embed/" : String).data = "youtube.com/embed".data ++ ['/'] := by decide
  rw [hsub] at heq
  have hre : a ++ ("youtube.com/embed".data ++ ['/']) ++ b
      = (a ++ "youtube.com/embed".data) ++ ('/' :: b) := by simp
  rw [hre] at heq
  have lp : ("https://youtu.be/" : String).data.length = 17 := rfl
  have ls : ("youtube.com/embed" : String).data.length = 17 := rfl
  have hlen := congrArg List.length heq
  rw [List.length_append, List.length_append, List.length_append, lp, ls,
    List.length_cons] at hlen
  have hgl : ("https://youtu.be/".data ++ id.data)[a.length + 17]?
      = ((a ++ "youtube.com/embed".data) ++ ('/' :: b))[a.length + 17]? := by
    rw [← heq]
  rw [List.getElem?_append_right
    (show ("https://youtu.be/" : String).data.length ≤ a.length + 17 by rw [lp]; omega)] at hgl
  rw [List.getElem?_append_right
    (show (a ++ ("youtube.com/embed" : String).data).length ≤ a.length + 17 by
      rw [List.length_append, ls])] at hgl
  rw [lp, List.length_append, ls] at hgl
  have e1 : a.length + 17 - 17 = a.length := by omega
  have e2 : a.length + 17 - (a.length + 17) = 0 := by omega
  rw [e1, e2, List.getElem?_cons_zero] at hgl
  have hmem : ('/' : Char) ∈ id.data := List.getElem?_mem hgl
  have := hall '/' hmem
  simp [notDelim] at this

/-- Claim C5: `getVideoEmbedUrl` leaves already-embeddable URLs unchanged,
rewrites a `youtu.be` short link with identifier `abc123` (and any
delimiter-free identifier) to the canonical embed URL with that identifier,
passes every other URL through unchanged, and is total on strings. -/
theorem getVideoEmbedUrl_spec :
    (∀ u, containsSubB u "youtube.com/embed/" = true → getVideoEmbedUrl u = u) ∧
    getVideoEmbedUrl "https://youtu.be/abc123" = "https://www.youtube.com/embed/abc123" ∧
    (∀ id, id ≠ "" → (∀ c ∈ id.data, notDelim c = true) →
      getVideoEmbedUrl ("https://youtu.be/" ++ id) = "https://www.youtube.com/embed/" ++ id) ∧
    (∀ u, containsSubB u "youtube.com/embed/" = false → matchVideo u.data = none →
      getVideoEmbedUrl u = u) ∧
    (∀ u, getVideoEmbedUrl u = u ∨
      ∃ cap, matchVideo u.data = some cap ∧
        getVideoEmbedUrl u = "https://www.youtube.com/embed/" ++ String.mk cap) := by
  refine ⟨fun u h => by simp [getVideoEmbedUrl, h], by decide, fun id hne hall => ?_,
    fun u h1 h2 => by simp [getVideoEmbedUrl, h1, h2], fun u => ?_⟩
  · have hdat : id.data ≠ [] := by
      intro hd
      apply hne
      cases id with
      | mk l => simp at hd; rw [hd]
    have hmv : matchVideo (("https://youtu.be/" ++ id) : String).data = some id.data := by
      rw [String.data_append]
      exact matchVideo_shortlink id.data hdat hall
    have hnc : ¬(containsSubB ("https://youtu.be/" ++ id) "youtube.com/embed/" = true) := by
      rw [shortlink_no_embed id hall]
      simp
    unfold getVideoEmbedUrl
    rw [if_neg hnc, hmv]
  · rw [getVideoEmbedUrl]
    by_cases hc : containsSubB u "youtube.com/embed/" = true
    · left; simp [hc]
    · rw [if_neg hc]
      cases hm : matchVideo u.data with
      | none => left; rfl
      | some cap => right; exact ⟨cap, rfl, rfl⟩

/-- Witness for `getVideoEmbedUrl_spec` at concrete URLs. -/
theorem getVideoEmbedUrl_spec_witness :
    getVideoEmbedUrl "https://www.youtube.com/embed/xyz" = "https://www.youtube.com/embed/xyz" ∧
    getVideoEmbedUrl ("https://youtu.be/" ++ "abc123") = "https://www.youtube.com/embed/" ++ "abc123" ∧
    getVideoEmbedUrl "https://example.com/demo" = "https://example.com/demo" :=
  ⟨getVideoEmbedUrl_spec.1 "https://www.youtube.com/embed/xyz" (by decide),
   getVideoEmbedUrl_spec.2.2.1 "abc123" (by decide) (by decide),
   getVideoEmbedUrl_spec.2.2.2.1 "https://example.com/demo" (by decide) (by decide)⟩

/-- Claim C1, counterexample: for the catalogue `[xTool]` (slug `x`, name
`X`, `price_eur` 12) the rendered detail markup contains neither the bare
string `Price: 12` nor `Buy (12)` — the script interpolates a euro sign, so
the price line reads `Price: €12` and the buy label `Buy (€12)`. -/
theorem endToEnd_example_counterexample :
    loadToolDetail true (some "x") [xTool] = .rendered (detailMarkup xTool) ∧
    containsSubB (detailMarkup xTool) "Price: 12" = false ∧
    containsSubB (detailMarkup xTool) "Buy (12)" = false :=
  ⟨rfl, by decide, by decide⟩

/-- Claim C1 (amended): for the one-element catalogue `[xTool]` the listing
renders exactly one card whose price label is `12 EUR`, and the detail page
for slug `x` renders the price line `Price: €12` and the buy button label
`Buy (€12)`. -/
theorem endToEnd_example :
    loadToolsInto [] [xTool]
      = [.elem "a" "tool-card" [("href", "tool.html?slug=x")] ""
          [.elem "div" "tool-card-content" [] ""
            [.elem "h2" "" [] "X" [],
             .elem "p" "tool-tagline" [] "" [],
             .elem "p" "tool-price" [("aria-hidden", "true")] "12 EUR" []]]] ∧
    getPriceLabel xTool = "12 EUR" ∧
    loadToolDetail true (some "x") [xTool] = .rendered (detailMarkup xTool) ∧
    containsSubB (detailMarkup xTool) "<p class=\"price\">Price: €12</p>" = true ∧
    containsSubB (detailMarkup xTool) ">Buy (€12)</button>" = true :=
  ⟨rfl, by decide, rfl, by decide, by decide⟩

theorem hexVal_hexDigitChar {d : Nat} (h : d < 16) : hexVal (hexDigitChar d) = some d := by
  interval_cases d <;> decide

theorem tokenize_raw {c : Char} (h : c ≠ '%') (r : List Char) :
    tokenize (c :: r) = (tokenize r).map (Tok.raw c :: ·) := by
  rw [tokenize.eq_def]
  simp only [h]
  cases r with
  | nil => simp
  | cons x xs =>
    cases xs with
    | nil => simp
    | cons y ys => simp

theorem tokenize_percent (b : Nat) (hb : b < 256) (r : List Char) :
    tokenize (percentByte b ++ r) = (tokenize r).map (Tok.byte b :: ·) := by
  have h1 : hexVal (hexDigitChar (b / 16)) = some (b / 16) :=
    hexVal_hexDigitChar (by omega)
  have h2 : hexVal (hexDigitChar (b % 16)) = some (b % 16) :=
    hexVal_hexDigitChar (by omega)
  have h3 : 16 * (b / 16) + b % 16 = b := by omega
  show tokenize ('%' :: hexDigitChar (b / 16) :: hexDigitChar (b % 16) :: r) = _
  rw [tokenize, if_pos rfl, h1, h2]
  show (tokenize r).map (Tok.byte (16 * (b / 16) + b % 16) :: ·)
    = (tokenize r).map (Tok.byte b :: ·)
  rw [h3]

theorem tokenize_bytes (bs : List Nat) (hbs : ∀ b ∈ bs, b < 256) (r : List Char) :
    tokenize ((bs.map percentByte).flatten ++ r)
      = (tokenize r).map (fun ts => bs.map Tok.byte ++ ts) := by
  induction bs with
  | nil =>
    simp only [List.map_nil, List.flatten_nil, List.nil_append]
    cases tokenize r <;> rfl
  | cons b bs ih =>
    have hb : b < 256 := hbs b (List.mem_cons_self b bs)
    have hbs' : ∀ x ∈ bs, x < 256 := fun x hx => hbs x (List.mem_cons_of_mem b hx)
    rw [List.map_cons, List.flatten_cons, List.append_assoc, tokenize_percent b hb, ih hbs']
    rw [Option.map_map]
    cases tokenize r <;> rfl

theorem utf8Bytes_lt {n : Nat} (h : n < 0x110000) : ∀ b ∈ utf8Bytes n, b < 256 := by
  intro b hb
  rw [utf8Bytes] at hb
  by_cases h1 : n < 0x80
  · rw [if_pos h1] at hb; simp at hb; omega
  · rw [if_neg h1] at hb
    by_cases h2 : n < 0x800
    · rw [if_pos h2] at hb; simp at hb; omega
    · rw [if_neg h2] at hb
      by_cases h3 : n < 0x10000
      · rw [if_pos h3] at hb; simp at hb
        rcases hb with hb | hb | hb <;> omega
      · rw [if_neg h3] at hb; simp at hb
        rcases hb with hb | hb | hb | hb <;> omega

theorem tokenize_encodeChar (c : Char) (r : List Char) :
    tokenize (encodeChar c ++ r) = (tokenize r).map (fun ts => encTok c ++ ts) := by
  rw [encodeChar, encTok]
  by_cases hu : isUnreservedChar c = true
  · rw [if_pos hu, if_pos hu]
    have hp : c ≠ '%' := by
      intro hc
      subst hc
      exact absurd hu (by decide)
    rw [List.singleton_append, tokenize_raw hp]
    cases tokenize r <;> rfl
  · rw [if_neg hu, if_neg hu]
    have hval : c.toNat < 0xD800 ∨ (0xDFFF < c.toNat ∧ c.toNat < 0x110000) := c.valid
    have hv : c.toNat < 0x110000 := by omega
    exact tokenize_bytes _ (utf8Bytes_lt hv) r

theorem tokenize_encodeL (l : List Char) :
    tokenize (encodeURIComponentL l) = some (encToks l) := by
  induction l with
  | nil => rfl
  | cons c cs ih =>
    rw [encodeURIComponentL, tokenize_encodeChar, ih]
    rfl

theorem decodeSeq_ascii {n : Nat} (h : n < 0x80) (rest : List Tok) :
    decodeSeq n rest = some (Char.ofNat n, rest) := by
  unfold decodeSeq
  rw [if_pos h]

theorem decodeSeq_two {n : Nat} (h1 : ¬ n < 0x80) (h2 : n < 0x800) (rest : List Tok) :
    decodeSeq (0xC0 + n / 64) (.byte (0x80 + n % 64) :: rest) = some (Char.ofNat n, rest) := by
  unfold decodeSeq
  rw [if_neg (by omega), if_neg (by omega), if_pos (by omega)]
  show (if 0x80 ≤ 0x80 + n % 64 ∧ 0x80 + n % 64 < 0xC0 then
      some (Char.ofNat ((0xC0 + n / 64 - 0xC0) * 64 + (0x80 + n % 64 - 0x80)), rest)
    else none) = some (Char.ofNat n, rest)
  rw [if_pos (by omega)]
  have hrec : (0xC0 + n / 64 - 0xC0) * 64 + (0x80 + n % 64 - 0x80) = n := by omega
  rw [hrec]

theorem decodeSeq_three {n : Nat} (h1 : ¬ n < 0x800) (h2 : n < 0x10000)
    (h3 : ¬ (0xD800 ≤ n ∧ n < 0xE000)) (rest : List Tok) :
    decodeSeq (0xE0 + n / 4096)
      (.byte (0x80 + n / 64 % 64) :: .byte (0x80 + n % 64) :: rest)
      = some (Char.ofNat n, rest) := by
  unfold decodeSeq
  rw [if_neg (by omega), if_neg (by omega), if_neg (by omega), if_pos (by omega)]
  show (if (0x80 ≤ 0x80 + n / 64 % 64 ∧ 0x80 + n / 64 % 64 < 0xC0)
        ∧ (0x80 ≤ 0x80 + n % 64 ∧ 0x80 + n % 64 < 0xC0) then
      if 0x800 ≤ (0xE0 + n / 4096 - 0xE0) * 4096 + (0x80 + n / 64 % 64 - 0x80) * 64
          + (0x80 + n % 64 - 0x80)
        ∧ ¬(0xD800 ≤ (0xE0 + n / 4096 - 0xE0) * 4096 + (0x80 + n / 64 % 64 - 0x80) * 64
            + (0x80 + n % 64 - 0x80)
          ∧ (0xE0 + n / 4096 - 0xE0) * 4096 + (0x80 + n / 64 % 64 - 0x80) * 64
            + (0x80 + n % 64 - 0x80) < 0xE000) then
        some (Char.ofNat ((0xE0 + n / 4096 - 0xE0) * 4096 + (0x80 + n / 64 % 64 - 0x80) * 64
          + (0x80 + n % 64 - 0x80)), rest)
      else none
    else none) = some (Char.ofNat n, rest)
  have hrec : (0xE0 + n / 4096 - 0xE0) * 4096 + (0x80 + n / 64 % 64 - 0x80) * 64
      + (0x80 + n % 64 - 0x80) = n := by omega
  rw [hrec, if_pos (by omega), if_pos (by omega)]

theorem decodeSeq_four {n : Nat} (h1 : ¬ n < 0x10000) (h2 : n < 0x110000) (rest : List Tok) :
    decodeSeq (0xF0 + n / 262144)
      (.byte (0x80 + n / 4096 % 64) :: .byte (0x80 + n / 64 % 64) :: .byte (0x80 + n % 64) :: rest)
      = some (Char.ofNat n, rest) := by
  unfold decodeSeq
  rw [if_neg (by omega), if_neg (by omega), if_neg (by omega), if_neg (by omega),
    if_pos (by omega)]
  show (if ((0x80 ≤ 0x80 + n / 4096 % 64 ∧ 0x80 + n / 4096 % 64 < 0xC0)
        ∧ (0x80 ≤ 0x80 + n / 64 % 64 ∧ 0x80 + n / 64 % 64 < 0xC0))
        ∧ (0x80 ≤ 0x80 + n % 64 ∧ 0x80 + n % 64 < 0xC0) then
      if 0x10000 ≤ (0xF0 + n / 262144 - 0xF0) * 262144 + (0x80 + n / 4096 % 64 - 0x80) * 4096
          + (0x80 + n / 64 % 64 - 0x80) * 64 + (0x80 + n % 64 - 0x80)
        ∧ (0xF0 + n / 262144 - 0xF0) * 262144 + (0x80 + n / 4096 % 64 - 0x80) * 4096
          + (0x80 + n / 64 % 64 - 0x80) * 64 + (0x80 + n % 64 - 0x80) < 0x110000 then
        some (Char.ofNat ((0xF0 + n / 262144 - 0xF0) * 262144 + (0x80 + n / 4096 % 64 - 0x80) * 4096
          + (0x80 + n / 64 % 64 - 0x80) * 64 + (0x80 + n % 64 - 0x80)), rest)
      else none
    else none) = some (Char.ofNat n, rest)
  have hrec : (0xF0 + n / 262144 - 0xF0) * 262144 + (0x80 + n / 4096 % 64 - 0x80) * 4096
      + (0x80 + n / 64 % 64 - 0x80) * 64 + (0x80 + n % 64 - 0x80) = n := by omega
  rw [hrec, if_pos (by omega), if_pos (by omega)]

theorem assembleAux_nil (fuel : Nat) : assembleAux fuel [] = some [] := by
  cases fuel <;> rfl

theorem assembleAux_encTok (c : Char) (toks : List Tok) (fuel : Nat) :
    assembleAux (fuel + 1) (encTok c ++ toks) = (assembleAux fuel toks).map (c :: ·) := by
  have hval : c.toNat < 0xD800 ∨ (0xDFFF < c.toNat ∧ c.toNat < 0x110000) := c.valid
  have hofn : Char.ofNat c.toNat = c := Char.ofNat_toNat c
  rw [encTok]
  by_cases hu : isUnreservedChar c = true
  · rw [if_pos hu, List.singleton_append]
    rfl
  · rw [if_neg hu, utf8Bytes]
    by_cases h1 : c.toNat < 0x80
    · rw [if_pos h1]
      show assembleAux (fuel + 1) (.byte c.toNat :: toks) = (assembleAux fuel toks).map (c :: ·)
      rw [assembleAux, decodeSeq_ascii h1]
      show (assembleAux fuel toks).map (Char.ofNat c.toNat :: ·)
        = (assembleAux fuel toks).map (c :: ·)
      rw [hofn]
    · rw [if_neg h1]
      by_cases h2 : c.toNat < 0x800
      · rw [if_pos h2]
        show assembleAux (fuel + 1)
          (.byte (0xC0 + c.toNat / 64) :: .byte (0x80 + c.toNat % 64) :: toks)
          = (assembleAux fuel toks).map (c :: ·)
        rw [assembleAux, decodeSeq_two h1 h2]
        show (assembleAux fuel toks).map (Char.ofNat c.toNat :: ·)
          = (assembleAux fuel toks).map (c :: ·)
        rw [hofn]
      · rw [if_neg h2]
        by_cases h3 : c.toNat < 0x10000
        · rw [if_pos h3]
          show assembleAux (fuel + 1)
            (.byte (0xE0 + c.toNat / 4096) :: .byte (0x80 + c.toNat / 64 % 64)
              :: .byte (0x80 + c.toNat % 64) :: toks)
            = (assembleAux fuel toks).map (c :: ·)
          have h4 : ¬ (0xD800 ≤ c.toNat ∧ c.toNat < 0xE000) := by omega
          rw [assembleAux, decodeSeq_three h2 h3 h4]
          show (assembleAux fuel toks).map (Char.ofNat c.toNat :: ·)
            = (assembleAux fuel toks).map (c :: ·)
          rw [hofn]
        · rw [if_neg h3]
          have h4 : c.toNat < 0x110000 := by omega
          show assembleAux (fuel + 1)
            (.byte (0xF0 + c.toNat / 262144) :: .byte (0x80 + c.toNat / 4096 % 64)
              :: .byte (0x80 + c.toNat / 64 % 64) :: .byte (0x80 + c.toNat % 64) :: toks)
            = (assembleAux fuel toks).map (c :: ·)
          rw [assembleAux, decodeSeq_four h3 h4]
          show (assembleAux fuel toks).map (Char.ofNat c.toNat :: ·)
            = (assembleAux fuel toks).map (c :: ·)
          rw [hofn]

theorem assembleAux_encToks (l : List Char) (fuel : Nat) (toks : List Tok) :
    assembleAux (l.length + fuel) (encToks l ++ toks)
      = (assembleAux fuel toks).map (fun ts => l ++ ts) := by
  induction l with
  | nil =>
    have h0 : encToks [] = [] := rfl
    rw [h0, List.nil_append, List.length_nil, Nat.zero_add]
    cases assembleAux fuel toks <;> rfl
  | cons c cs ih =>
    have h1 : encToks (c :: cs) = encTok c ++ encToks cs := by
      rw [encToks, List.map_cons, List.flatten_cons]
      rfl
    have h2 : (c :: cs).length + fuel = (cs.length + fuel) + 1 := by
      rw [List.length_cons]
      omega
    rw [h1, h2, List.append_assoc, assembleAux_encTok, ih, Option.map_map]
    cases assembleAux fuel toks <;> rfl

theorem encTok_length_pos (c : Char) : 1 ≤ (encTok c).length := by
  rw [encTok]
  by_cases hu : isUnreservedChar c = true
  · rw [if_pos hu]
    simp
  · rw [if_neg hu, List.length_map, utf8Bytes]
    by_cases a1 : c.toNat < 0x80
    · rw [if_pos a1]; simp
    · rw [if_neg a1]
      by_cases a2 : c.toNat < 0x800
      · rw [if_pos a2]; simp
      · rw [if_neg a2]
        by_cases a3 : c.toNat < 0x10000
        · rw [if_pos a3]; simp
        · rw [if_neg a3]; simp

theorem encToks_length (l : List Char) : l.length ≤ (encToks l).length := by
  induction l with
  | nil => simp [encToks]
  | cons c cs ih =>
    have h1 : encToks (c :: cs) = encTok c ++ encToks cs := by
      rw [encToks, List.map_cons, List.flatten_cons]
      rfl
    have h2 := encTok_length_pos c
    rw [h1, List.length_append, List.length_cons]
    omega

theorem assemble_encToks (l : List Char) : assemble (encToks l) = some l := by
  rw [assemble]
  obtain ⟨k, hk⟩ : ∃ k, (encToks l).length = l.length + k :=
    ⟨(encToks l).length - l.length, by have := encToks_length l; omega⟩
  have h3 : encToks l ++ [] = encToks l := List.append_nil _
  rw [hk, ← h3, assembleAux_encToks, assembleAux_nil]
  show some (l ++ ([] : List Char)) = some l
  rw [List.append_nil]

theorem decode_encode (s : String) : decodeURIComponent (encodeURIComponent s) = some s := by
  rw [decodeURIComponent, encodeURIComponent]
  show ((tokenize (encodeURIComponentL s.data)).bind assemble).map String.mk = some s
  rw [tokenize_encodeL, Option.some_bind, assemble_encToks]
  rfl

/-- Claim C3: for every catalogue (empty included), `loadTools` with a
present container renders one card per entry, in catalogue order (a single
informational paragraph for the empty catalogue); each card links to
`tool.html` with the URL-encoded slug as query parameter, and URL-decoding
recovers exactly the entry's slug. -/
theorem loadTools_cards :
    (∀ container, loadToolsInto container [] = [noToolsMsg]) ∧
    (∀ container t ts, loadToolsInto container (t :: ts) = (t :: ts).map toolCard) ∧
    (∀ t, hrefOf (toolCard t) = "tool.html?slug=" ++ encodeURIComponent t.slug) ∧
    (∀ s, decodeURIComponent (encodeURIComponent s) = some s) :=
  ⟨fun _ => rfl, fun _ _ _ => rfl, fun _ => rfl, decode_encode⟩

end Thalem
